import Mathlib

/-!
Verification development for the `claude-installer` repository
(`src/claude_installer/install_claude.py`).

The script manages a delimited configuration block in shell rc files,
probes a Node.js installation, masks secrets for display and dispatches
the `install` / `check` / `uninstall` subcommands.  This file gives a
shallow embedding of that logic:

* file contents are lists of characters (`Str`);
* `splitFirst` models the leftmost match of a literal pattern, which is
  how the script's escaped-marker regexes behave;
* `removeBlocks` models `re.sub(START + '.*?' + END, '', s, flags=DOTALL)`
  (repeatedly delete from the first start marker to the first end marker
  after it);
* `collapse` models `re.sub(r'\n{3,}', '\n\n', s)`;
* `pyStrip` models Python's `str.strip()`;
* `upsert` models the per-file body of `ClaudeInstaller.update_shell_config`,
  `removeCfgContent` the per-file body of `ClaudeInstaller.remove_shell_config`;
* `genLines` / `generate_shell_config` model
  `ClaudeInstaller.generate_shell_config` (the timestamp, home-derived
  directories and the sorted node-version listing are parameters, since
  the script reads them from the environment);
* `update_shell_config` / `remove_shell_config` model the loops over a
  dialect's candidate rc files, over an abstract file system `FS`;
* `check_node_version`, `maskApiKey`, `maskSecret`, `cmd_uninstall` model
  the probing, masking and uninstall-dispatch logic.

Theorems named `cN_*` settle the correspondingly numbered specification
claims; `*_witness` theorems instantiate the hypotheses of those theorems
at concrete inputs, and `*_counterexample` theorems exhibit concrete
inputs refuting claims that do not hold of the code.
-/

namespace Installer

/-- File contents and rendered text are modelled as lists of characters. -/
abbrev Str := List Char

/-- `CONFIG_START_MARKER` from the script. -/
def startMarker : Str := "# >>> Claude Code Configuration >>>".data

/-- `CONFIG_END_MARKER` from the script. -/
def endMarker : Str := "# <<< Claude Code Configuration <<<".data

/-- Split `s` around the first (leftmost) occurrence of the literal
pattern `pat`: `some (before, after)` where `s = before ++ pat ++ after`,
or `none` when `pat` does not occur.  This is how `re` finds the match of
an escaped literal. -/
def splitFirst (pat : Str) : Str → Option (Str × Str)
  | [] => none
  | x :: xs =>
    if pat.isPrefixOf (x :: xs) then some ([], (x :: xs).drop pat.length)
    else (splitFirst pat xs).map fun pr => (x :: pr.1, pr.2)

/-- Boolean substring test, modelling Python's `pat in s` (for nonempty
`pat`). -/
def occursB (pat s : Str) : Bool := (splitFirst pat s).isSome

/-- Propositional substring occurrence. -/
def Occurs (pat s : Str) : Prop := ∃ u v, s = u ++ pat ++ v

/-- `re.sub(r'\n{3,}', '\n\n', s)`: every maximal run of three or more
newlines becomes exactly two newlines. -/
def collapse : Str → Str
  | [] => []
  | [a] => [a]
  | [a, b] => [a, b]
  | a :: b :: c :: rest =>
    if a = '\n' ∧ b = '\n' ∧ c = '\n' then collapse (b :: c :: rest)
    else a :: collapse (b :: c :: rest)

/-- The characters Python's `str.strip()` removes. -/
def pySpace (c : Char) : Bool :=
  c = ' ' || c = '\t' || c = '\n' || c = '\r' || c = '\x0b' || c = '\x0c'

/-- Python's `str.strip()`. -/
def pyStrip (s : Str) : Str :=
  ((s.dropWhile pySpace).reverse.dropWhile pySpace).reverse

/-! ### Basic facts about `splitFirst` and `Occurs` -/

theorem splitFirst_sound {pat : Str} :
    ∀ {s p r : Str}, splitFirst pat s = some (p, r) → s = p ++ pat ++ r := by
  intro s
  induction s with
  | nil => intro p r h; simp [splitFirst] at h
  | cons x xs ih =>
    intro p r h
    rw [splitFirst] at h
    by_cases hp : pat.isPrefixOf (x :: xs)
    · rw [if_pos hp, Option.some.injEq, Prod.mk.injEq] at h
      obtain ⟨hp1, hp2⟩ := h
      have hpfx : pat <+: x :: xs := List.isPrefixOf_iff_prefix.mp hp
      obtain ⟨t, ht⟩ := hpfx
      subst hp1
      have : (x :: xs).drop pat.length = t := by
        rw [← ht, List.drop_left]
      rw [← hp2, this, List.nil_append, ht]
    · rw [if_neg hp] at h
      cases hsf : splitFirst pat xs with
      | none => rw [hsf] at h; simp at h
      | some pr =>
        rw [hsf] at h
        simp only [Option.map_some', Option.some.injEq, Prod.mk.injEq] at h
        obtain ⟨h1, h2⟩ := h
        have := ih hsf
        rw [← h1, ← h2]
        simp only [List.cons_append]
        rw [← this]

theorem splitFirst_isSome {pat : Str} (hne : pat ≠ []) :
    ∀ (u v : Str), (splitFirst pat (u ++ pat ++ v)).isSome = true := by
  intro u
  induction u with
  | nil =>
    intro v
    obtain ⟨p₀, pt, rfl⟩ : ∃ p₀ pt, pat = p₀ :: pt := by
      cases pat with
      | nil => exact absurd rfl hne
      | cons a b => exact ⟨a, b, rfl⟩
    simp only [List.nil_append, List.cons_append]
    rw [splitFirst]
    have hpfx : (p₀ :: pt).isPrefixOf (p₀ :: (pt ++ v)) := by
      rw [ List.isPrefixOf_iff_prefix]
      exact ⟨v, by simp⟩
    rw [if_pos hpfx]
    simp
  | cons x u' ih =>
    intro v
    simp only [List.cons_append]
    rw [splitFirst]
    by_cases hp : pat.isPrefixOf (x :: (u' ++ pat ++ v))
    · rw [if_pos hp]; simp
    · rw [if_neg hp]
      have := ih v
      cases hsf : splitFirst pat (u' ++ pat ++ v) with
      | none => rw [hsf] at this; simp at this
      | some pr => simp

theorem occursB_true_iff {pat s : Str} (hne : pat ≠ []) :
    occursB pat s = true ↔ Occurs pat s := by
  constructor
  · intro h
    rw [occursB, Option.isSome_iff_exists] at h
    obtain ⟨⟨p, r⟩, hpr⟩ := h
    exact ⟨p, r, splitFirst_sound hpr⟩
  · rintro ⟨u, v, rfl⟩
    exact splitFirst_isSome hne u v

theorem occursB_false_iff {pat s : Str} (hne : pat ≠ []) :
    occursB pat s = false ↔ ¬ Occurs pat s := by
  rw [← occursB_true_iff hne]
  cases h : occursB pat s <;> simp

theorem startMarker_ne_nil : startMarker ≠ [] := by decide

theorem endMarker_ne_nil : endMarker ≠ [] := by decide

/-! ### Prefix utilities -/

theorem pfx_of_pfx_append {p a b : Str} (h : p <+: a ++ b)
    (hl : p.length ≤ a.length) : p <+: a := by
  induction p generalizing a with
  | nil => exact List.nil_prefix
  | cons u pt ih =>
    cases a with
    | nil => simp at hl
    | cons v at' =>
      simp only [List.cons_append, List.cons_prefix_cons] at h
      obtain ⟨rfl, h2⟩ := h
      simp only [List.length_cons, Nat.add_le_add_iff_right] at hl
      exact List.cons_prefix_cons.mpr ⟨rfl, ih h2 hl⟩

theorem append_pfx_of_pfx {p a b : Str} (h : p <+: a ++ b)
    (hl : a.length ≤ p.length) : a <+: p := by
  induction a generalizing p with
  | nil => exact List.nil_prefix
  | cons v at' ih =>
    cases p with
    | nil => simp at hl
    | cons u pt =>
      simp only [List.cons_append, List.cons_prefix_cons] at h
      obtain ⟨rfl, h2⟩ := h
      simp only [List.length_cons, Nat.add_le_add_iff_right] at hl
      exact List.cons_prefix_cons.mpr ⟨rfl, ih h2 hl⟩

theorem drop_pfx_of_pfx {p a b : Str} (h : p <+: a ++ b)
    (ha : a <+: p) : p.drop a.length <+: b := by
  obtain ⟨w, rfl⟩ := ha
  rw [List.drop_left]
  obtain ⟨t, ht⟩ := h
  rw [List.append_assoc] at ht
  have := List.append_inj_right ht rfl
  exact ⟨t, this⟩

theorem not_pfx_append {p s : Str} (t : Str) (h1 : ¬ p <+: s) (h2 : ¬ s <+: p) :
    ¬ p <+: s ++ t := by
  intro h
  by_cases hl : p.length ≤ s.length
  · exact h1 (pfx_of_pfx_append h hl)
  · exact h2 (append_pfx_of_pfx h (Nat.le_of_lt (Nat.lt_of_not_le hl)))

/-- A pattern is overlap-free when no proper nonempty suffix of it is one
of its prefixes.  Both markers are overlap-free (`#` occurs only at
index 0). -/
def overlapFreeB (pat : Str) : Bool :=
  (List.range pat.length).all fun k => decide (k = 0) || !((pat.drop k).isPrefixOf pat)

theorem overlapFree_spec {pat : Str} (h : overlapFreeB pat = true) :
    ∀ k, 0 < k → k < pat.length → ¬ (pat.drop k <+: pat) := by
  intro k hk hk2 hpfx
  rw [overlapFreeB, List.all_eq_true] at h
  have := h k (List.mem_range.mpr hk2)
  rw [Bool.or_eq_true] at this
  rcases this with h' | h'
  · rw [decide_eq_true_iff] at h'; omega
  · rw [Bool.not_eq_true'] at h'
    rw [← List.isPrefixOf_iff_prefix] at hpfx
    rw [h'] at hpfx
    exact Bool.false_ne_true hpfx

theorem startMarker_overlapFree : overlapFreeB startMarker = true := by decide

theorem endMarker_overlapFree : overlapFreeB endMarker = true := by decide

/-- If no occurrence of `pat` starts strictly inside `a`, then searching
`a ++ b` is searching `b` (shifted by `a`). -/
theorem splitFirst_append (pat : Str) {a : Str} (b : Str)
    (h : ∀ a₂, a₂ <:+ a → a₂ ≠ [] → ¬ pat <+: (a₂ ++ b)) :
    splitFirst pat (a ++ b) =
      (splitFirst pat b).map fun pr => (a ++ pr.1, pr.2) := by
  induction a with
  | nil =>
    cases hsf : splitFirst pat b with
    | none => simp [hsf]
    | some pr => simp [hsf]
  | cons x xs ih =>
    have hxne : ¬ pat.isPrefixOf ((x :: xs) ++ b) := by
      rw [ List.isPrefixOf_iff_prefix]
      exact h (x :: xs) List.suffix_rfl (by simp)
    simp only [List.cons_append]
    rw [splitFirst]
    rw [List.cons_append] at hxne
    rw [if_neg hxne]
    have h' : ∀ a₂, a₂ <:+ xs → a₂ ≠ [] → ¬ pat <+: (a₂ ++ b) := by
      intro a₂ hs hn
      exact h a₂ (hs.trans (List.suffix_cons x xs)) hn
    rw [ih h']
    cases hsf : splitFirst pat b with
    | none => simp
    | some pr => simp

/-- When `pat` is nonempty, the first match of `pat` in `pat ++ t` is at
position 0. -/
theorem splitFirst_self {pat : Str} (hne : pat ≠ []) (t : Str) :
    splitFirst pat (pat ++ t) = some ([], t) := by
  obtain ⟨p₀, pt, rfl⟩ : ∃ p₀ pt, pat = p₀ :: pt := by
    cases pat with
    | nil => exact absurd rfl hne
    | cons a b => exact ⟨a, b, rfl⟩
  simp only [List.cons_append]
  rw [splitFirst]
  have hpfx : (p₀ :: pt).isPrefixOf (p₀ :: (pt ++ t)) := by
    rw [ List.isPrefixOf_iff_prefix]
    exact ⟨t, by simp⟩
  rw [if_pos hpfx]
  have : (p₀ :: (pt ++ t)).drop (p₀ :: pt).length = t := by
    have : p₀ :: (pt ++ t) = (p₀ :: pt) ++ t := by simp
    rw [this, List.drop_left]
  rw [this]

/-- Discharges `splitFirst_append`'s side condition when the text after
`a` starts with the (overlap-free) pattern itself and `pat` does not
occur in `a`. -/
theorem no_early_match {pat a : Str} (t : Str) (hne : pat ≠ [])
    (hocc : ¬ Occurs pat a) (hov : overlapFreeB pat = true) :
    ∀ a₂, a₂ <:+ a → a₂ ≠ [] → ¬ pat <+: (a₂ ++ (pat ++ t)) := by
  intro a₂ hs hn hpfx
  by_cases hl : pat.length ≤ a₂.length
  · have h1 : pat <+: a₂ := pfx_of_pfx_append hpfx hl
    obtain ⟨u, hu⟩ := hs
    obtain ⟨w, hw⟩ := h1
    exact hocc ⟨u, w, by rw [← hu, ← hw]; simp⟩
  · have hl' : a₂.length ≤ pat.length := Nat.le_of_lt (Nat.lt_of_not_le hl)
    have h1 : a₂ <+: pat := append_pfx_of_pfx hpfx hl'
    have h2 : pat.drop a₂.length <+: pat ++ t := drop_pfx_of_pfx hpfx h1
    have h3 : pat.drop a₂.length <+: pat := by
      apply pfx_of_pfx_append h2
      rw [List.length_drop]
      omega
    have hpos : 0 < a₂.length := by
      cases a₂ with
      | nil => exact absurd rfl hn
      | cons _ _ => simp
    exact overlapFree_spec hov a₂.length hpos (Nat.lt_of_not_le hl) h3

/-! ### Facts about `collapse` -/

/-- Two newlines: the replacement text of the blank-line collapse and the
separator the upsert inserts. -/
def nl2 : Str := ['\n', '\n']

/-- Three newlines: the shortest text matched by `\n{3,}`. -/
def nl3 : Str := ['\n', '\n', '\n']

theorem collapse_cons3 (a b c : Char) (rest : Str) :
    collapse (a :: b :: c :: rest) =
      if a = '\n' ∧ b = '\n' ∧ c = '\n' then collapse (b :: c :: rest)
      else a :: collapse (b :: c :: rest) := rfl

theorem collapse_length_le (s : Str) : (collapse s).length ≤ s.length := by
  induction s using collapse.induct with
  | case1 => simp [collapse]
  | case2 a => simp [collapse]
  | case3 a b => simp [collapse]
  | case4 a b c rest h ih =>
    rw [collapse_cons3, if_pos h]
    simp only [List.length_cons] at ih ⊢
    omega
  | case5 a b c rest h ih =>
    rw [collapse_cons3, if_neg h]
    simp only [List.length_cons] at ih ⊢
    omega

theorem collapse_eq_self_of_length :
    ∀ {s : Str}, (collapse s).length = s.length → collapse s = s := by
  intro s
  induction s using collapse.induct with
  | case1 => intro _; rfl
  | case2 a => intro _; rfl
  | case3 a b => intro _; rfl
  | case4 a b c rest h ih =>
    intro hl
    exfalso
    rw [collapse_cons3, if_pos h] at hl
    have := collapse_length_le (b :: c :: rest)
    simp only [List.length_cons] at hl this
    omega
  | case5 a b c rest h ih =>
    intro hl
    rw [collapse_cons3, if_neg h] at hl ⊢
    simp only [List.length_cons] at hl
    rw [ih (by simp only [List.length_cons]; omega)]

theorem collapse_lt_of_occurs_nl3 :
    ∀ {s : Str}, Occurs nl3 s → (collapse s).length < s.length := by
  intro s
  induction s using collapse.induct with
  | case1 =>
    rintro ⟨u, v, huv⟩
    exact absurd (congrArg List.length huv) (by simp [nl3]; omega)
  | case2 a =>
    rintro ⟨u, v, huv⟩
    exact absurd (congrArg List.length huv) (by simp [nl3]; omega)
  | case3 a b =>
    rintro ⟨u, v, huv⟩
    exact absurd (congrArg List.length huv) (by simp [nl3]; omega)
  | case4 a b c rest h ih =>
    intro _
    rw [collapse_cons3, if_pos h]
    have := collapse_length_le (b :: c :: rest)
    simp only [List.length_cons] at this ⊢
    omega
  | case5 a b c rest h ih =>
    rintro ⟨u, v, huv⟩
    rw [collapse_cons3, if_neg h]
    have hocc : Occurs nl3 (b :: c :: rest) := by
      cases u with
      | nil =>
        exfalso
        simp only [List.nil_append, nl3, List.cons_append, List.cons.injEq] at huv
        exact h ⟨huv.1, huv.2.1, huv.2.2.1⟩
      | cons x u' =>
        simp only [List.cons_append, List.cons.injEq] at huv
        exact ⟨u', v, huv.2⟩
    have := ih hocc
    simp only [List.length_cons] at this ⊢
    omega

theorem noRun3_of_collapse_eq {c : Str} (h : collapse c = c) : ¬ Occurs nl3 c := by
  intro hocc
  have := collapse_lt_of_occurs_nl3 hocc
  rw [h] at this
  omega

/-- Prefixng a character preserves substring occurrences. -/
theorem occurs_cons {pat t : Str} (x : Char) (h : Occurs pat t) :
    Occurs pat (x :: t) := by
  obtain ⟨u, v, rfl⟩ := h
  exact ⟨x :: u, v, rfl⟩

theorem collapse_append_nl3 :
    ∀ {c : Str}, ¬ Occurs nl3 (c ++ nl2) → collapse (c ++ nl3) = c ++ nl2 := by
  intro c
  induction c with
  | nil => intro _; decide
  | cons x d1 ih =>
    intro hocc
    cases d1 with
    | nil =>
      by_cases hx : x = '\n'
      · exact absurd ⟨[], [], by simp [hx, nl2, nl3]⟩ hocc
      · show collapse (x :: '\n' :: '\n' :: ['\n']) = x :: nl2
        rw [collapse_cons3, if_neg (by simp [hx])]
        rfl
    | cons y d2 =>
      cases d2 with
      | nil =>
        by_cases hy : y = '\n'
        · exact absurd ⟨[x], [], by simp [hy, nl2, nl3]⟩ hocc
        · show collapse (x :: y :: '\n' :: ('\n' :: ['\n'])) = x :: y :: nl2
          rw [collapse_cons3, if_neg (by simp [hy]),
            collapse_cons3, if_neg (by simp [hy])]
          rfl
      | cons z d3 =>
        by_cases h3 : x = '\n' ∧ y = '\n' ∧ z = '\n'
        · refine absurd ⟨[], d3 ++ nl2, ?_⟩ hocc
          obtain ⟨rfl, rfl, rfl⟩ := h3
          simp [nl3]
        · have hshape : (x :: y :: z :: d3) ++ nl3 = x :: y :: z :: (d3 ++ nl3) := by
            simp
          rw [hshape, collapse_cons3, if_neg h3]
          have hocd1 : ¬ Occurs nl3 ((y :: z :: d3) ++ nl2) := by
            intro hc
            refine hocc ?_
            have hsh : (x :: y :: z :: d3) ++ nl2 = x :: ((y :: z :: d3) ++ nl2) := by
              simp
            rw [hsh]
            exact occurs_cons x hc
          have := ih hocd1
          simp only [List.cons_append] at this ⊢
          rw [this]

/-! ### Facts about `pyStrip` -/

theorem dropWhile_length_le (p : Char → Bool) (l : Str) :
    (l.dropWhile p).length ≤ l.length := by
  induction l with
  | nil => simp
  | cons x xs ih =>
    rw [List.dropWhile_cons]
    by_cases hp : p x
    · rw [if_pos hp]; simp only [List.length_cons]; omega
    · rw [if_neg hp]

theorem dropWhile_eq_self_of_length {p : Char → Bool} {l : Str}
    (h : (l.dropWhile p).length = l.length) : l.dropWhile p = l := by
  cases l with
  | nil => simp
  | cons x xs =>
    rw [List.dropWhile_cons] at h ⊢
    by_cases hp : p x
    · rw [if_pos hp] at h
      have := dropWhile_length_le p xs
      simp only [List.length_cons] at h
      omega
    · rw [if_neg hp]

theorem pyStrip_length_le (s : Str) : (pyStrip s).length ≤ s.length := by
  rw [pyStrip]
  have h1 := dropWhile_length_le pySpace s
  have h2 := dropWhile_length_le pySpace (s.dropWhile pySpace).reverse
  simp only [List.length_reverse] at h2 ⊢
  omega

theorem pyStrip_parts {c : Str} (h : pyStrip c = c) :
    c.dropWhile pySpace = c ∧ c.reverse.dropWhile pySpace = c.reverse := by
  have hlen := congrArg List.length h
  rw [pyStrip] at hlen
  have h1 := dropWhile_length_le pySpace c
  have h2 := dropWhile_length_le pySpace (c.dropWhile pySpace).reverse
  simp only [List.length_reverse] at hlen h2
  have hfront : c.dropWhile pySpace = c := dropWhile_eq_self_of_length (by omega)
  refine ⟨hfront, ?_⟩
  rw [pyStrip, hfront] at h
  have hrr : c.reverse.dropWhile pySpace = (c.reverse.dropWhile pySpace).reverse.reverse := by
    rw [List.reverse_reverse]
  rw [hrr, h]

theorem no_trailing_nl {c : Str} (h : pyStrip c = c) : ¬ ∃ u, c = u ++ ['\n'] := by
  rintro ⟨u, rfl⟩
  have hback := (pyStrip_parts h).2
  rw [List.reverse_append] at hback
  simp only [List.reverse_cons, List.reverse_nil, List.nil_append,
    List.singleton_append] at hback
  rw [List.dropWhile_cons, if_pos (by decide : pySpace '\n' = true)] at hback
  have hl := congrArg List.length hback
  have hle := dropWhile_length_le pySpace u.reverse
  simp only [List.length_cons] at hl
  omega

theorem pyStrip_append_nl2 {c : Str} (h : pyStrip c = c) (hne : c ≠ []) :
    pyStrip (c ++ nl2) = c := by
  obtain ⟨hfront, hback⟩ := pyStrip_parts h
  obtain ⟨ch, ct, rfl⟩ : ∃ ch ct, c = ch :: ct := by
    cases c with
    | nil => exact absurd rfl hne
    | cons a b => exact ⟨a, b, rfl⟩
  have hch : ¬ pySpace ch := by
    intro hp
    rw [List.dropWhile_cons, if_pos hp] at hfront
    have hl := congrArg List.length hfront
    have hle := dropWhile_length_le pySpace ct
    simp only [List.length_cons] at hl
    omega
  rw [pyStrip]
  have hstep1 : ((ch :: ct) ++ nl2).dropWhile pySpace = (ch :: ct) ++ nl2 := by
    rw [List.cons_append, List.dropWhile_cons, if_neg hch]
  rw [hstep1]
  have hstep2 : ((ch :: ct) ++ nl2).reverse.dropWhile pySpace = (ch :: ct).reverse := by
    rw [List.reverse_append]
    have hrev : nl2.reverse = '\n' :: ['\n'] := by decide
    rw [hrev, List.cons_append, List.singleton_append,
      List.dropWhile_cons, if_pos (by decide : pySpace '\n' = true),
      List.dropWhile_cons, if_pos (by decide : pySpace '\n' = true)]
    exact hback
  rw [hstep2, List.reverse_reverse]

theorem collapse_fix {c : Str} (h : pyStrip (collapse c) = c) :
    collapse c = c ∧ pyStrip c = c := by
  have hlen := congrArg List.length h
  have h1 := pyStrip_length_le (collapse c)
  have h2 := collapse_length_le c
  have hcol : collapse c = c := collapse_eq_self_of_length (by omega)
  rw [hcol] at h
  exact ⟨hcol, h⟩

/-! ### `removeBlocks`: the DOTALL non-greedy marker-pair deletion -/

/-- Fuelled worker for `removeBlocks`, kept structurally recursive so the
kernel can evaluate it on concrete inputs. -/
def rbF : Nat → Str → Str
  | 0, s => s
  | fuel + 1, s =>
    match splitFirst startMarker s with
    | none => s
    | some (pre, r1) =>
      match splitFirst endMarker r1 with
      | none => s
      | some (_, r2) => pre ++ rbF fuel r2

/-- `re.sub(escape(START) + '.*?' + escape(END), '', s, flags=DOTALL)`:
repeatedly delete from the first start marker through the first end
marker after it. -/
def removeBlocks (s : Str) : Str := rbF s.length s

theorem splitFirst_nil (pat : Str) : splitFirst pat [] = none := rfl

theorem rbF_zero (s : Str) : rbF 0 s = s := rfl

theorem rbF_succ_none {fuel : Nat} {s : Str}
    (h : splitFirst startMarker s = none) : rbF (fuel + 1) s = s := by
  rw [rbF, h]

theorem rbF_succ_noEnd {fuel : Nat} {s pre r1 : Str}
    (h1 : splitFirst startMarker s = some (pre, r1))
    (h2 : splitFirst endMarker r1 = none) : rbF (fuel + 1) s = s := by
  rw [rbF, h1]
  simp only [h2]

theorem rbF_succ_step {fuel : Nat} {s pre r1 q r2 : Str}
    (h1 : splitFirst startMarker s = some (pre, r1))
    (h2 : splitFirst endMarker r1 = some (q, r2)) :
    rbF (fuel + 1) s = pre ++ rbF fuel r2 := by
  rw [rbF, h1]
  simp only [h2]

theorem rbF_step_length {s pre r1 q r2 : Str}
    (h1 : splitFirst startMarker s = some (pre, r1))
    (h2 : splitFirst endMarker r1 = some (q, r2)) : r2.length < s.length := by
  have e1 := splitFirst_sound h1
  have e2 := splitFirst_sound h2
  rw [e1, e2]
  have hs : startMarker.length = 35 := by decide
  simp only [List.length_append, hs]
  omega

theorem rbF_fuel : ∀ (f g : Nat) (s : Str), s.length ≤ f → s.length ≤ g →
    rbF f s = rbF g s := by
  intro f
  induction f with
  | zero =>
    intro g s hf hg
    have hnil : s = [] := List.eq_nil_of_length_eq_zero (by omega)
    subst hnil
    cases g with
    | zero => rfl
    | succ g' => rw [rbF_succ_none (splitFirst_nil _)]; rfl
  | succ f' ih =>
    intro g s hf hg
    cases g with
    | zero =>
      have hnil : s = [] := List.eq_nil_of_length_eq_zero (by omega)
      subst hnil
      rw [rbF_succ_none (splitFirst_nil _)]
      rfl
    | succ g' =>
      cases h1 : splitFirst startMarker s with
      | none => rw [rbF_succ_none h1, rbF_succ_none h1]
      | some pr1 =>
        obtain ⟨pre, r1⟩ := pr1
        cases h2 : splitFirst endMarker r1 with
        | none => rw [rbF_succ_noEnd h1 h2, rbF_succ_noEnd h1 h2]
        | some pr2 =>
          obtain ⟨q, r2⟩ := pr2
          have hlt := rbF_step_length h1 h2
          rw [rbF_succ_step h1 h2, rbF_succ_step h1 h2,
            ih g' r2 (by omega) (by omega)]

theorem removeBlocks_none {s : Str} (h : splitFirst startMarker s = none) :
    removeBlocks s = s := by
  rw [removeBlocks]
  cases hl : s.length with
  | zero => rfl
  | succ n => exact rbF_succ_none h

theorem removeBlocks_noEnd {s pre r1 : Str}
    (h1 : splitFirst startMarker s = some (pre, r1))
    (h2 : splitFirst endMarker r1 = none) : removeBlocks s = s := by
  rw [removeBlocks]
  cases hl : s.length with
  | zero => rfl
  | succ n => exact rbF_succ_noEnd h1 h2

theorem removeBlocks_step {s pre r1 q r2 : Str}
    (h1 : splitFirst startMarker s = some (pre, r1))
    (h2 : splitFirst endMarker r1 = some (q, r2)) :
    removeBlocks s = pre ++ removeBlocks r2 := by
  have hlt := rbF_step_length h1 h2
  rw [removeBlocks, removeBlocks]
  cases hl : s.length with
  | zero => omega
  | succ n =>
    rw [rbF_succ_step h1 h2, rbF_fuel n r2.length r2 (by omega) (by omega)]

/-! ### The per-file upsert and removal transformations -/

/-- The cleanup `update_shell_config` applies when the start marker is
present: delete marker blocks, collapse blank-line runs, strip. -/
def cleanse (s : Str) : Str := pyStrip (collapse (removeBlocks s))

/-- Per-file body of `ClaudeInstaller.update_shell_config` (lines
454-471): read the existing content (empty when the file is absent),
remove an existing configuration block when the start marker is present,
then append the freshly rendered block `B`, separated by a blank line
from any retained content. -/
def upsert (B s : Str) : Str :=
  let s' := if occursB startMarker s then cleanse s else s
  if s' = [] then B else s' ++ (nl2 ++ B)

/-- Per-file body of `ClaudeInstaller.remove_shell_config` (lines
499-506), applied when the file exists and contains the start marker:
delete the block, collapse blank lines, strip, and append exactly one
trailing newline. -/
def removeCfgContent (s : Str) : Str := pyStrip (collapse (removeBlocks s)) ++ ['\n']

theorem upsert_nil (B : Str) : upsert B [] = B := by
  simp [upsert, occursB, splitFirst]

theorem upsert_no_marker {B c : Str} (hc : occursB startMarker c = false)
    (hcnil : c ≠ []) : upsert B c = c ++ (nl2 ++ B) := by
  rw [upsert]
  simp only [hc, Bool.false_eq_true, if_false, if_neg hcnil]

theorem upsert_marker {B c : Str} (hc : occursB startMarker c = true) :
    upsert B c = if cleanse c = [] then B else cleanse c ++ (nl2 ++ B) := by
  rw [upsert]
  simp only [hc, if_true]

/-- The body of a block `B` of the shape
`startMarker ++ mid ++ endMarker ++ "\n"`. -/
def blockMid (B : Str) : Str :=
  (B.drop startMarker.length).take
    ((B.drop startMarker.length).length - (endMarker.length + 1))

/-- A rendered block is well formed when it is the start marker, a body,
the end marker and a final newline, the body contains no end marker, and
the text after the leading start marker contains no further start
marker.  `generate_shell_config` produces such blocks whenever the
configuration values do not themselves contain the marker strings. -/
def goodBlockB (B : Str) : Bool :=
  decide (B = startMarker ++ (blockMid B ++ (endMarker ++ ['\n'])))
  && !occursB endMarker (blockMid B)
  && !occursB startMarker (blockMid B ++ (endMarker ++ ['\n']))

theorem goodBlockB_spec {B : Str} (h : goodBlockB B = true) :
    B = startMarker ++ (blockMid B ++ (endMarker ++ ['\n'])) ∧
    occursB endMarker (blockMid B) = false ∧
    occursB startMarker (blockMid B ++ (endMarker ++ ['\n'])) = false := by
  rw [goodBlockB, Bool.and_eq_true, Bool.and_eq_true] at h
  obtain ⟨⟨h1, h2⟩, h3⟩ := h
  exact ⟨of_decide_eq_true h1, by simpa using h2, by simpa using h3⟩

/-- The first start-marker match in `c ++ (startMarker ++ rest)` is the
explicit one when `c` contains no start marker. -/
theorem splitFirst_start_here {c : Str} (rest : Str)
    (hc : ¬ Occurs startMarker c) :
    splitFirst startMarker (c ++ (startMarker ++ rest)) = some (c, rest) := by
  rw [splitFirst_append startMarker (startMarker ++ rest)
      (no_early_match rest startMarker_ne_nil hc startMarker_overlapFree),
    splitFirst_self startMarker_ne_nil]
  simp

/-- The first end-marker match in `mid ++ (endMarker ++ tail)` is the
explicit one when `mid` contains no end marker. -/
theorem splitFirst_end_here {mid : Str} (tail : Str)
    (hm : ¬ Occurs endMarker mid) :
    splitFirst endMarker (mid ++ (endMarker ++ tail)) = some (mid, tail) := by
  rw [splitFirst_append endMarker (endMarker ++ tail)
      (no_early_match tail endMarker_ne_nil hm endMarker_overlapFree),
    splitFirst_self endMarker_ne_nil]
  simp

theorem occursB_of_splitFirst {pat s p r : Str}
    (h : splitFirst pat s = some (p, r)) : occursB pat s = true := by
  rw [occursB, h]
  rfl

theorem not_occurs_nil {pat : Str} (hne : pat ≠ []) : ¬ Occurs pat ([] : Str) := by
  rintro ⟨u, v, huv⟩
  have hl := congrArg List.length huv
  simp only [List.length_nil, List.length_append] at hl
  have : pat.length ≠ 0 := fun h0 => hne (List.eq_nil_of_length_eq_zero h0)
  omega

/-- Deleting the single well-delimited block. -/
theorem removeBlocks_clean {c mid tail : Str}
    (hc : ¬ Occurs startMarker c)
    (hmid : ¬ Occurs endMarker mid)
    (htail : splitFirst startMarker tail = none) :
    removeBlocks (c ++ (startMarker ++ (mid ++ (endMarker ++ tail)))) = c ++ tail := by
  rw [removeBlocks_step (splitFirst_start_here _ hc) (splitFirst_end_here _ hmid),
    removeBlocks_none htail]

theorem cleanse_block {B : Str} (hB : goodBlockB B = true) : cleanse B = [] := by
  obtain ⟨hshape, hmidE, _⟩ := goodBlockB_spec hB
  have hmid : ¬ Occurs endMarker (blockMid B) :=
    (occursB_false_iff endMarker_ne_nil).mp hmidE
  have hrb : removeBlocks B = ['\n'] := by
    conv_lhs => rw [hshape, show startMarker ++ (blockMid B ++ (endMarker ++ ['\n'])) =
      [] ++ (startMarker ++ (blockMid B ++ (endMarker ++ ['\n']))) from rfl]
    rw [removeBlocks_clean (not_occurs_nil startMarker_ne_nil) hmid (by decide)]
    rfl
  rw [cleanse, hrb]
  decide

/-- Appending two newlines to start-marker-free text keeps it
start-marker-free (the start marker contains no newline). -/
theorem no_occurs_start_append_nl2 {c : Str} (h : ¬ Occurs startMarker c) :
    ¬ Occurs startMarker (c ++ nl2) := by
  rintro ⟨u, v, heq⟩
  rw [List.append_assoc] at heq
  rcases List.append_eq_append_iff.mp heq with ⟨a', _, ha2⟩ | ⟨c', hc1, hc2⟩
  · -- the whole marker would sit inside the two appended newlines
    have hmem : '#' ∈ nl2 := by
      have hin : '#' ∈ startMarker := by decide
      rw [ha2]
      simp only [List.mem_append]
      right; left; exact hin
    simp [nl2] at hmem
  · rcases List.append_eq_append_iff.mp hc2 with ⟨b', hb1, _⟩ | ⟨d', hd1, hd2⟩
    · exact h ⟨u, b', by rw [hc1, hb1, List.append_assoc]⟩
    · by_cases hd : d' = []
      · subst hd
        rw [List.append_nil] at hd1
        exact h ⟨u, [], by rw [hc1, hd1, List.append_nil]⟩
      · -- a nonempty suffix of the marker would start with a newline
        have hmem : '\n' ∈ startMarker := by
          rw [hd1]
          simp only [List.mem_append]
          right
          obtain ⟨x, d'', rfl⟩ : ∃ x d'', d' = x :: d'' := by
            cases d' with
            | nil => exact absurd rfl hd
            | cons a b => exact ⟨a, b, rfl⟩
          have hx : x ∈ nl2 := by rw [hd2]; simp
          have hx' : x = '\n' := by simpa [nl2] using hx
          rw [hx']; simp
        revert hmem
        decide

/-- Appending two newlines to three-newline-free text that does not end
in a newline cannot create a three-newline run. -/
theorem noRun3_append_nl2 {c : Str} (h1 : ¬ Occurs nl3 c)
    (h2 : ¬ ∃ u, c = u ++ ['\n']) : ¬ Occurs nl3 (c ++ nl2) := by
  rintro ⟨u, v, heq⟩
  rw [List.append_assoc] at heq
  rcases List.append_eq_append_iff.mp heq with ⟨a', _, ha2⟩ | ⟨c', hc1, hc2⟩
  · have hl := congrArg List.length ha2
    simp [nl2, nl3] at hl
    omega
  · rcases List.append_eq_append_iff.mp hc2 with ⟨b', hb1, _⟩ | ⟨d', hd1, hd2⟩
    · exact h1 ⟨u, b', by rw [hc1, hb1, List.append_assoc]⟩
    · have hl1 := congrArg List.length hd1
      have hl2 := congrArg List.length hd2
      simp only [List.length_append, nl2, nl3, List.length_cons,
        List.length_nil] at hl1 hl2
      have hcne : c' ≠ [] := by
        intro hnil
        rw [hnil] at hl1
        simp at hl1
        omega
      have hlast : c'.getLast hcne = '\n' := by
        have hm : c'.getLast hcne ∈ c' := List.getLast_mem hcne
        have hm3 : c'.getLast hcne ∈ nl3 := by
          rw [hd1]
          simp only [List.mem_append]
          left; exact hm
        simpa [nl3] using hm3
      refine h2 ⟨u ++ c'.dropLast, ?_⟩
      rw [hc1]
      conv_lhs => rw [← List.dropLast_append_getLast hcne]
      rw [hlast, List.append_assoc]

/-- Core idempotence: on normalized start-marker-free content, a second
upsert of the same well-formed block reproduces the file byte for byte,
and the result contains exactly one start-marker occurrence. -/
theorem upsert_idem_core {B c : Str} (hB : goodBlockB B = true)
    (hc : occursB startMarker c = false) (hn : pyStrip (collapse c) = c) :
    upsert B (upsert B c) = upsert B c ∧
    ∃ p r, splitFirst startMarker (upsert B c) = some (p, r) ∧
      occursB startMarker r = false := by
  obtain ⟨hshape, hmidE, hrest⟩ := goodBlockB_spec hB
  have hmid : ¬ Occurs endMarker (blockMid B) :=
    (occursB_false_iff endMarker_ne_nil).mp hmidE
  by_cases hcnil : c = []
  · subst hcnil
    rw [upsert_nil]
    constructor
    · have hOccB : occursB startMarker B = true := by
        conv_lhs => rw [hshape]
        exact occursB_of_splitFirst (splitFirst_self startMarker_ne_nil _)
      rw [upsert_marker hOccB, if_pos (cleanse_block hB)]
    · refine ⟨[], blockMid B ++ (endMarker ++ ['\n']), ?_, hrest⟩
      conv_lhs => rw [hshape]
      exact splitFirst_self startMarker_ne_nil _
  · have hoccc : ¬ Occurs startMarker c := (occursB_false_iff startMarker_ne_nil).mp hc
    have h1 : upsert B c = c ++ (nl2 ++ B) := upsert_no_marker hc hcnil
    obtain ⟨hcol, hps⟩ := collapse_fix hn
    have hnl2free : ¬ Occurs startMarker (c ++ nl2) :=
      no_occurs_start_append_nl2 hoccc
    have hassoc : c ++ (nl2 ++ B) =
        (c ++ nl2) ++ (startMarker ++ (blockMid B ++ (endMarker ++ ['\n']))) := by
      conv_lhs => rw [hshape]
      rw [List.append_assoc]
    have hsf1 : splitFirst startMarker (c ++ (nl2 ++ B)) =
        some (c ++ nl2, blockMid B ++ (endMarker ++ ['\n'])) := by
      rw [hassoc]
      exact splitFirst_start_here _ hnl2free
    have hrb : removeBlocks (c ++ (nl2 ++ B)) = c ++ nl3 := by
      rw [hassoc, removeBlocks_clean hnl2free hmid (by decide)]
      rw [show (['\n'] : Str) = ['\n'] from rfl]
      rw [List.append_assoc]
      rfl
    have hclean : cleanse (c ++ (nl2 ++ B)) = c := by
      rw [cleanse, hrb]
      rw [collapse_append_nl3 (noRun3_append_nl2 (noRun3_of_collapse_eq hcol)
        (no_trailing_nl hps))]
      exact pyStrip_append_nl2 hps hcnil
    constructor
    · rw [h1, upsert_marker (occursB_of_splitFirst hsf1), hclean,
        if_neg hcnil]
    · rw [h1]
      exact ⟨c ++ nl2, blockMid B ++ (endMarker ++ ['\n']), hsf1, hrest⟩

/-- Core round trip: upsert into an empty file writes exactly the block,
and the removal step then leaves exactly one newline. -/
theorem roundTrip_core {B : Str} (hB : goodBlockB B = true) :
    upsert B [] = B ∧ occursB startMarker (upsert B []) = true ∧
    removeCfgContent (upsert B []) = ['\n'] := by
  have h1 : upsert B [] = B := upsert_nil B
  obtain ⟨hshape, _, _⟩ := goodBlockB_spec hB
  refine ⟨h1, ?_, ?_⟩
  · rw [h1]
    conv_lhs => rw [hshape]
    exact occursB_of_splitFirst (splitFirst_self startMarker_ne_nil _)
  · rw [h1, removeCfgContent]
    have hcl := cleanse_block hB
    rw [cleanse] at hcl
    rw [hcl]
    rfl

/-! ### The installer's configuration and shell tables -/

/-- The configuration dictionary built in `ClaudeInstaller.__init__` and
overwritten by the argument parser.  String values are character lists;
`tokenType` is the `token_type` entry (`"anthropic"` or `"bedrock"`). -/
structure Config where
  token : Str
  tokenType : Str
  awsRegion : Str
  awsProfile : Str
  httpProxy : Str
  nodeVersion : Str
  nodeExtraCaCerts : Str
  skipProxy : Bool
  keepNode : Bool
  force : Bool
  verbose : Bool

/-- The defaults from `ClaudeInstaller.__init__`. -/
def defaultConfig : Config where
  token := []
  tokenType := "anthropic".data
  awsRegion := []
  awsProfile := []
  httpProxy := []
  nodeVersion := "22".data
  nodeExtraCaCerts := "/etc/ssl/certs/ca-certificates.crt".data
  skipProxy := false
  keepNode := false
  force := false
  verbose := false

/-- The five supported shell dialects. -/
inductive Shell
  | bash
  | zsh
  | fish
  | csh
  | tcsh
  deriving DecidableEq

/-- The `rc_files` entry of `self.shell_configs` for each dialect, in
priority order (paths relative to the user's home directory). -/
def rc_files : Shell → List String
  | .bash => [".bashrc", ".bash_profile", ".profile"]
  | .zsh => [".zshrc", ".zprofile"]
  | .fish => [".config/fish/conf.d/claude.fish"]
  | .csh => [".cshrc", ".login"]
  | .tcsh => [".tcshrc", ".cshrc", ".login"]

/-- The constant part of an environment-variable export line, up to and
including the opening quote of the value (`env_syntax` with the key
substituted). -/
def expPfx (sh : Shell) (key : Str) : Str :=
  match sh with
  | .fish => "set -gx ".data ++ key ++ " \"".data
  | .csh | .tcsh => "setenv ".data ++ key ++ " \"".data
  | .bash | .zsh => "export ".data ++ key ++ "=\"".data

/-- `env_syntax.format(key=key, value=value)` for each dialect. -/
def envLine (sh : Shell) (key value : Str) : Str :=
  expPfx sh key ++ (value ++ "\"".data)

/-- The version-manager initialization lines of the block
(lines 369-401 of the script).  `nv` is `str(self.nvm_dir)`, `np` is
`str(self.npm_global_dir)` and `vers` is the descending-sorted listing
of `nvm_dir/versions/node` used by the csh/tcsh branch (empty when the
directory is absent or empty). -/
def shellInitLines (sh : Shell) (nv np : Str) (vers : List Str) : List Str :=
  match sh with
  | .fish =>
    [envLine .fish "NVM_DIR".data nv,
     [],
     "# Add nvm Node.js to PATH".data,
     "if test -d \"$NVM_DIR/versions/node\"".data,
     "    for version_dir in (ls -d \"$NVM_DIR/versions/node\"/* 2>/dev/null | sort -V -r)".data,
     "        if test -d \"$version_dir/bin\"".data,
     "            fish_add_path \"$version_dir/bin\"".data,
     "            break".data,
     "        end".data,
     "    end".data,
     "end".data,
     [],
     "fish_add_path \"".data ++ (np ++ "/bin\"".data)]
  | .csh | .tcsh =>
    [envLine sh "NVM_DIR".data nv,
     [],
     "# Add nvm Node.js to PATH (static - may need adjustment)".data]
    ++ (match vers with
        | [] => []
        | v :: _ =>
          ["if ( -d \"".data ++ (v ++ "/bin\" ) then".data),
           "    setenv PATH \"".data ++ (v ++ "/bin:$PATH\"".data),
           "endif".data])
    ++ ["setenv PATH \"".data ++ (np ++ "/bin:$PATH\"".data)]
  | .bash | .zsh =>
    [envLine sh "NVM_DIR".data nv,
     "[ -s \"$NVM_DIR/nvm.sh\" ] && \\. \"$NVM_DIR/nvm.sh\"".data,
     "[ -s \"$NVM_DIR/bash_completion\" ] && \\. \"$NVM_DIR/bash_completion\"".data,
     [],
     "export PATH=\"".data ++ (np ++ "/bin:$PATH\"".data)]

/-- The key/value pairs exported by the token, region, profile, proxy and
CA-certificate sections (lines 405-431), in emission order. -/
def emittedKVs (cfg : Config) : List (Str × Str) :=
  (if cfg.token = [] then []
   else if cfg.tokenType = "bedrock".data then
     [("AWS_BEARER_TOKEN_BEDROCK".data, cfg.token),
      ("CLAUDE_CODE_USE_BEDROCK".data, "1".data)]
   else [("ANTHROPIC_API_KEY".data, cfg.token)])
  ++ (if cfg.awsRegion = [] then []
      else [("AWS_REGION".data, cfg.awsRegion)]
        ++ (if cfg.tokenType = "bedrock".data then
              [("ANTHROPIC_BEDROCK_REGION".data, cfg.awsRegion)]
            else []))
  ++ (if cfg.awsProfile = [] then [] else [("AWS_PROFILE".data, cfg.awsProfile)])
  ++ (if cfg.httpProxy ≠ [] ∧ cfg.skipProxy = false then
        [("HTTP_PROXY".data, cfg.httpProxy),
         ("HTTPS_PROXY".data, cfg.httpProxy),
         ("http_proxy".data, cfg.httpProxy),
         ("https_proxy".data, cfg.httpProxy)]
      else [])
  ++ [("NODE_EXTRA_CA_CERTS".data, cfg.nodeExtraCaCerts)]

/-- The `lines` list built by `ClaudeInstaller.generate_shell_config`:
markers, timestamp comment, version-manager initialization and the
conditional exports. `ts` is the rendered timestamp. -/
def genLines (cfg : Config) (sh : Shell) (ts nv np : Str) (vers : List Str) :
    List Str :=
  [startMarker, "# Generated on ".data ++ ts, []]
  ++ shellInitLines sh nv np vers
  ++ [[]]
  ++ (emittedKVs cfg).map (fun kv => envLine sh kv.1 kv.2)
  ++ [[], endMarker]

/-- `'\n'.join(lines) + '\n'`: the rendered configuration block. -/
def generate_shell_config (cfg : Config) (sh : Shell) (ts nv np : Str)
    (vers : List Str) : Str :=
  List.intercalate ['\n'] (genLines cfg sh ts nv np vers) ++ ['\n']

/-! ### File-system level operations -/

/-- The relevant slice of the file system: candidate rc-file names mapped
to their contents (`none` = the file does not exist). -/
abbrev FS := String → Option Str

/-- Whole-file write. -/
def setFile (fs : FS) (f : String) (v : Str) : FS :=
  fun g => if g = f then some v else fs g

/-- The loop of `ClaudeInstaller.update_shell_config` (lines 447-478):
upsert the block into each candidate file in order, breaking after the
first file unless the dialect is fish.  Returns the new file system and
`updated_file` (the last file written). -/
def update_shell_config_loop (fishMode : Bool) (B : Str) :
    List String → FS → FS × Option String
  | [], fs => (fs, none)
  | f :: rest, fs =>
    let newC := upsert B ((fs f).getD [])
    let fs1 := setFile fs f newC
    if fishMode then
      match update_shell_config_loop fishMode B rest fs1 with
      | (fs2, some g) => (fs2, some g)
      | (fs2, none) => (fs2, some f)
    else (fs1, some f)

/-- `ClaudeInstaller.update_shell_config` for one dialect. -/
def update_shell_config (cfg : Config) (sh : Shell) (ts nv np : Str)
    (vers : List Str) (fs : FS) : FS × Option String :=
  update_shell_config_loop (decide (sh = Shell.fish))
    (generate_shell_config cfg sh ts nv np vers) (rc_files sh) fs

/-- The loop of `ClaudeInstaller.remove_shell_config` (lines 493-510):
for each existing candidate file whose content contains the start
marker, strip the block and rewrite the file (reporting it cleaned);
returns the new file system and the `removed` flag. -/
def remove_shell_config_loop : List String → FS → FS × Bool
  | [], fs => (fs, false)
  | f :: rest, fs =>
    match fs f with
    | none => remove_shell_config_loop rest fs
    | some content =>
      if occursB startMarker content then
        let fs1 := setFile fs f (removeCfgContent content)
        let r := remove_shell_config_loop rest fs1
        (r.1, true)
      else remove_shell_config_loop rest fs

/-- `ClaudeInstaller.remove_shell_config` for one dialect. -/
def remove_shell_config (sh : Shell) (fs : FS) : FS × Bool :=
  remove_shell_config_loop (rc_files sh) fs

/-! ### Node version probing (`check_node_version`) -/

/-- Python truthiness of an optional captured-output string (`None` and
`""` are falsy). -/
def isFalsy : Option String → Bool
  | none => true
  | some s => s = ""

/-- Try to match `v(\d+)\.(\d+)\.(\d+)` at the head of `s`; returns the
major version (the only group the script uses) on success. -/
def tryMatchVer : Str → Option Nat
  | 'v' :: r =>
    let d1 := r.takeWhile Char.isDigit
    if d1 = [] then none
    else
      match r.dropWhile Char.isDigit with
      | '.' :: r2 =>
        let d2 := r2.takeWhile Char.isDigit
        if d2 = [] then none
        else
          match r2.dropWhile Char.isDigit with
          | '.' :: r3 =>
            if r3.takeWhile Char.isDigit = [] then none
            else some (d1.foldl (fun a c => 10 * a + (c.toNat - 48)) 0)
          | _ => none
      | _ => none
  | _ => none

/-- `re.search(r'v(\d+)\.(\d+)\.(\d+)', s)`: the leftmost match. -/
def searchVer : Str → Option Nat
  | [] => none
  | x :: xs =>
    match tryMatchVer (x :: xs) with
    | some n => some n
    | none => searchVer xs

/-- `ClaudeInstaller.check_node_version` (lines 136-161), over the two
captured probe outputs (the nvm-sourced probe and the bare `node
--version` fallback). -/
def check_node_version (nvmProbe sysProbe : Option String) : Bool × String :=
  let v := if isFalsy nvmProbe then sysProbe else nvmProbe
  match v with
  | none => (false, "Node.js not found")
  | some s =>
    if s = "" then (false, "Node.js not found")
    else
      match searchVer s.data with
      | some major =>
        if 18 ≤ major then (true, "Node.js " ++ s ++ " (OK - >=18)")
        else (false, "Node.js " ++ s ++ " (Too old - need >=18)")
      | none => (false, "Could not parse Node.js version: " ++ s)

/-! ### Secret masking in `cmd_check` -/

/-- Line 682: `api_key[:10] + '...' + api_key[-4:] if len(api_key) > 14
else '***'`. -/
def maskApiKey (k : Str) : Str :=
  if 14 < k.length then k.take 10 ++ ("...".data ++ k.drop (k.length - 4))
  else "***".data

/-- Line 691: `value[:10] + '...' if len(value) > 10 else '***'`. -/
def maskSecret (v : Str) : Str :=
  if 10 < v.length then v.take 10 ++ "...".data else "***".data

/-- Lines 687-692: how `cmd_check` displays one of the other environment
variables: masked when the name contains `TOKEN` or `KEY`, verbatim
otherwise. -/
def secretDisplay (name v : Str) : Str :=
  if occursB "TOKEN".data name || occursB "KEY".data name then maskSecret v
  else v

/-! ### The uninstall command -/

/-- The facts about the environment that `cmd_uninstall` consults:
whether the version-manager and npm-global directories exist, whether
their recursive removal succeeds, which shells are installed, and the
rc-file contents. -/
structure SysState where
  nvmDirExists : Bool
  rmNvmOk : Bool
  npmGlobalExists : Bool
  rmNpmOk : Bool
  installed : Shell → Bool
  fs : FS

/-- `ClaudeInstaller.uninstall_claude_code` (lines 512-534): two
best-effort `npm uninstall` invocations whose results are discarded;
always returns `True`. -/
def uninstall_claude_code (npmRes1 npmRes2 : Option String) : Bool :=
  let _ := npmRes1
  let _ := npmRes2
  true

/-- `ClaudeInstaller.uninstall_node_nvm` (lines 536-556): returns
`False` only when the nvm directory exists and its removal raises;
failure to remove the npm-global directory is only a warning. -/
def uninstall_node_nvm (st : SysState) : Bool :=
  if st.nvmDirExists && !st.rmNvmOk then false else true

/-- Iteration order of `self.shell_configs` (Python dict insertion
order). -/
def shellOrder : List Shell := [.bash, .zsh, .fish, .csh, .tcsh]

/-- `ClaudeInstaller.cmd_uninstall` (lines 723-755): best-effort tool
uninstall, conditional runtime removal (result ignored), shell-config
cleanup for every installed dialect, then `return 0`. -/
def cmd_uninstall (st : SysState) (keepNode : Bool)
    (npmRes1 npmRes2 : Option String) : Nat × FS :=
  let _tool := uninstall_claude_code npmRes1 npmRes2
  let _node := if keepNode then true else uninstall_node_nvm st
  let fs' := shellOrder.foldl
    (fun fs sh => if st.installed sh then (remove_shell_config sh fs).1 else fs)
    st.fs
  (0, fs')

/-! ### Sample concrete inputs used by witnesses and counterexamples -/

/-- A concrete rendered timestamp. -/
def sampleTs : Str := "2024-01-01 00:00:00".data

/-- A concrete `str(self.nvm_dir)`. -/
def sampleNvmDir : Str := "/home/u/.nvm".data

/-- A concrete `str(self.npm_global_dir)`. -/
def sampleNpmDir : Str := "/home/u/.npm-global".data

/-- The empty file system. -/
def fsEmpty : FS := fun _ => none

/-- A bash home in which `.bashrc` is absent but `.bash_profile` exists. -/
def fsC5 : FS := fun g => if g = ".bash_profile" then some "x".data else none

/-- A bash home in which `.bashrc` consists of the start marker alone
(no end marker). -/
def fsC6 : FS := fun g => if g = ".bashrc" then some startMarker else none

/-- Modelled from the spec (not from the code, which has no such
selection): "first existing, or first in list, is the edit target". -/
def specFirstExisting (files : List String) (fs : FS) : Option String :=
  match files.find? (fun f => (fs f).isSome) with
  | some f => some f
  | none => files.head?

/-- The first candidate rc file of a dialect. -/
def firstTarget (sh : Shell) : String := (rc_files sh).headD ""

/-! ### Claim C1 -/

/-- C1: the claim — that `update_shell_config` run twice on the same file
with the same configuration is byte-identical to running it once for
*every* rc file content — fails on the code: marker-free content is
appended verbatim, so a not-yet-normalized file such as `"x\n"` comes
out differently after the first and the second run (the counterexample
below).  Amended claim, proved here: when the rendered block is well
formed and the prior content contains no start marker and is a fixed
point of the cleanup normalization (no leading or trailing whitespace,
no runs of three or more newlines), the second upsert reproduces the
file byte for byte, and the file contains exactly one start-marker
occurrence (a first match with no further match after it). -/
theorem c1_upsert_idem (cfg : Config) (sh : Shell) (ts nv np : Str)
    (vers : List Str) (c : Str)
    (hB : goodBlockB (generate_shell_config cfg sh ts nv np vers) = true)
    (hc : occursB startMarker c = false) (hn : pyStrip (collapse c) = c) :
    upsert (generate_shell_config cfg sh ts nv np vers)
        (upsert (generate_shell_config cfg sh ts nv np vers) c) =
      upsert (generate_shell_config cfg sh ts nv np vers) c ∧
    ∃ p r, splitFirst startMarker
        (upsert (generate_shell_config cfg sh ts nv np vers) c) = some (p, r) ∧
      occursB startMarker r = false :=
  upsert_idem_core hB hc hn

set_option maxRecDepth 40000 in
/-- C1 witness: the amended idempotence at a concrete configuration and
content. -/
theorem c1_upsert_idem_witness :
    goodBlockB (generate_shell_config defaultConfig Shell.bash sampleTs
      sampleNvmDir sampleNpmDir []) = true ∧
    occursB startMarker "hello".data = false ∧
    pyStrip (collapse "hello".data) = "hello".data ∧
    (upsert (generate_shell_config defaultConfig Shell.bash sampleTs
        sampleNvmDir sampleNpmDir [])
        (upsert (generate_shell_config defaultConfig Shell.bash sampleTs
          sampleNvmDir sampleNpmDir []) "hello".data) =
      upsert (generate_shell_config defaultConfig Shell.bash sampleTs
        sampleNvmDir sampleNpmDir []) "hello".data ∧
    ∃ p r, splitFirst startMarker
        (upsert (generate_shell_config defaultConfig Shell.bash sampleTs
          sampleNvmDir sampleNpmDir []) "hello".data) = some (p, r) ∧
      occursB startMarker r = false) :=
  ⟨by decide, by decide, by decide,
   c1_upsert_idem defaultConfig Shell.bash sampleTs sampleNvmDir sampleNpmDir []
     "hello".data (by decide) (by decide) (by decide)⟩

set_option maxRecDepth 40000 in
/-- C1 counterexample: on the completely ordinary content `"x\n"` (a file
ending in a newline), running the upsert twice is NOT byte-identical to
running it once — the first run leaves an extra blank line that the
second run's normalization removes. -/
theorem c1_counterexample :
    upsert (generate_shell_config defaultConfig Shell.bash sampleTs
        sampleNvmDir sampleNpmDir [])
      (upsert (generate_shell_config defaultConfig Shell.bash sampleTs
        sampleNvmDir sampleNpmDir []) "x\n".data) ≠
    upsert (generate_shell_config defaultConfig Shell.bash sampleTs
      sampleNvmDir sampleNpmDir []) "x\n".data := by
  decide

/-! ### Claim C2 -/

/-- C2: upsert into an originally empty (or absent) rc file followed by
the removal step yields a file holding exactly one newline and nothing
else, for every dialect and every configuration whose rendered block is
well formed. -/
theorem c2_roundtrip_empty (cfg : Config) (sh : Shell) (ts nv np : Str)
    (vers : List Str)
    (hB : goodBlockB (generate_shell_config cfg sh ts nv np vers) = true) :
    occursB startMarker
        (upsert (generate_shell_config cfg sh ts nv np vers) []) = true ∧
    removeCfgContent
        (upsert (generate_shell_config cfg sh ts nv np vers) []) = ['\n'] :=
  ⟨(roundTrip_core hB).2.1, (roundTrip_core hB).2.2⟩

set_option maxRecDepth 40000 in
/-- C2 witness at a concrete dialect and configuration. -/
theorem c2_roundtrip_empty_witness :
    goodBlockB (generate_shell_config defaultConfig Shell.zsh sampleTs
      sampleNvmDir sampleNpmDir []) = true ∧
    (occursB startMarker
        (upsert (generate_shell_config defaultConfig Shell.zsh sampleTs
          sampleNvmDir sampleNpmDir []) []) = true ∧
    removeCfgContent
        (upsert (generate_shell_config defaultConfig Shell.zsh sampleTs
          sampleNvmDir sampleNpmDir []) []) = ['\n']) :=
  ⟨by decide,
   c2_roundtrip_empty defaultConfig Shell.zsh sampleTs sampleNvmDir
     sampleNpmDir [] (by decide)⟩

/-! ### Claim C3 -/

/-- C3: the three distinguishable outcomes of `check_node_version`:
`"v18.0.0"` satisfies the probe, `"v17.9.9"` is rejected as too old, a
string without the `vMAJOR.MINOR.PATCH` pattern is rejected with an
unparseable message distinct from the "not found" message produced when
no version string is obtained at all. -/
theorem c3_node_version_outcomes :
    (check_node_version (some "v18.0.0") none).1 = true ∧
    check_node_version (some "v17.9.9") none =
      (false, "Node.js v17.9.9 (Too old - need >=18)") ∧
    check_node_version none none = (false, "Node.js not found") ∧
    ∀ s : String, searchVer s.data = none → s ≠ "" →
      check_node_version (some s) none =
        (false, "Could not parse Node.js version: " ++ s) ∧
      "Could not parse Node.js version: " ++ s ≠ "Node.js not found" := by
  refine ⟨by decide, by decide, rfl, ?_⟩
  intro s hs hne
  constructor
  · rw [check_node_version]
    simp only [isFalsy, hne, hs]
    simp [hne, hs]
  · intro heq
    have hl := congrArg String.length heq
    rw [String.length_append] at hl
    have h1 : ("Could not parse Node.js version: " : String).length = 33 := by decide
    have h2 : ("Node.js not found" : String).length = 17 := by decide
    omega

/-- C3 witness: the unparseable branch at the concrete input
`"garbage"`. -/
theorem c3_node_version_outcomes_witness :
    searchVer "garbage".data = none ∧ ("garbage" : String) ≠ "" ∧
    (check_node_version (some "garbage") none =
      (false, "Could not parse Node.js version: " ++ "garbage") ∧
    "Could not parse Node.js version: " ++ "garbage" ≠ "Node.js not found") :=
  ⟨by decide, by decide,
   c3_node_version_outcomes.2.2.2 "garbage" (by decide) (by decide)⟩

/-! ### Claim C7 -/

/-- C7: `cmd_uninstall` returns exit status 0 for every prior installed
state, every flag combination, and regardless of whether directory
removal or either best-effort package uninstall attempt fails. -/
theorem c7_uninstall_exit_zero (st : SysState) (keepNode : Bool)
    (npmRes1 npmRes2 : Option String) :
    (cmd_uninstall st keepNode npmRes1 npmRes2).1 = 0 := rfl

/-! ### Claim C8 -/

/-- C8: `cmd_check`'s display of `ANTHROPIC_API_KEY`: a value of length
20 is shown as its first 10 characters, `"..."`, then its last 4
characters; a value of length 8 is fully masked as `"***"`. -/
theorem c8_api_key_masking (k20 k8 : Str) :
    (k20.length = 20 →
      maskApiKey k20 = k20.take 10 ++ ("...".data ++ k20.drop 16)) ∧
    (k8.length = 8 → maskApiKey k8 = "***".data) := by
  constructor
  · intro h
    rw [maskApiKey, if_pos (by omega), h]
  · intro h
    rw [maskApiKey, if_neg (by omega)]

/-- C8 witness at concrete values of lengths 20 and 8. -/
theorem c8_api_key_masking_witness :
    "abcdefghijklmnopqrst".data.length = 20 ∧ "abcdefgh".data.length = 8 ∧
    maskApiKey "abcdefghijklmnopqrst".data =
      "abcdefghijklmnopqrst".data.take 10 ++
        ("...".data ++ "abcdefghijklmnopqrst".data.drop 16) ∧
    maskApiKey "abcdefgh".data = "***".data :=
  ⟨by decide, by decide,
   (c8_api_key_masking "abcdefghijklmnopqrst".data "abcdefgh".data).1 (by decide),
   (c8_api_key_masking "abcdefghijklmnopqrst".data "abcdefgh".data).2 (by decide)⟩

/-! ### Claim C10 -/

/-- C10: `cmd_check`'s display of the other secret-bearing variables
(names containing `TOKEN` or `KEY`, e.g. `AWS_BEARER_TOKEN_BEDROCK`): a
value longer than 10 characters is shown as its first 10 characters plus
`"..."` with no trailing suffix; a value of length at most 10 is shown
as `"***"`; and this rule differs from the `ANTHROPIC_API_KEY` rule
(e.g. at length 12). -/
theorem c10_secret_masking (v w x : Str) :
    (10 < v.length → maskSecret v = v.take 10 ++ "...".data) ∧
    (w.length ≤ 10 → maskSecret w = "***".data) ∧
    secretDisplay "AWS_BEARER_TOKEN_BEDROCK".data x = maskSecret x ∧
    (x.length = 12 → maskSecret x ≠ maskApiKey x) := by
  refine ⟨?_, ?_, ?_, ?_⟩
  · intro h
    rw [maskSecret, if_pos h]
  · intro h
    rw [maskSecret, if_neg (by omega)]
  · rw [secretDisplay, if_pos (by decide)]
  · intro h
    intro heq
    have hl := congrArg List.length heq
    rw [maskSecret, if_pos (by omega), maskApiKey, if_neg (by omega)] at hl
    simp only [List.length_append, List.length_take] at hl
    rw [h] at hl
    revert hl
    decide

/-- C10 witness at concrete values. -/
theorem c10_secret_masking_witness :
    10 < "abcdefghijkl".data.length ∧ "short".data.length ≤ 10 ∧
    "abcdefghijkl".data.length = 12 ∧
    maskSecret "abcdefghijkl".data = "abcdefghijkl".data.take 10 ++ "...".data ∧
    maskSecret "short".data = "***".data ∧
    secretDisplay "AWS_BEARER_TOKEN_BEDROCK".data "abcdefghijkl".data =
      maskSecret "abcdefghijkl".data ∧
    maskSecret "abcdefghijkl".data ≠ maskApiKey "abcdefghijkl".data :=
  ⟨by decide, by decide, by decide,
   (c10_secret_masking "abcdefghijkl".data "short".data "abcdefghijkl".data).1
     (by decide),
   (c10_secret_masking "abcdefghijkl".data "short".data "abcdefghijkl".data).2.1
     (by decide),
   (c10_secret_masking "abcdefghijkl".data "short".data "abcdefghijkl".data).2.2.1,
   (c10_secret_masking "abcdefghijkl".data "short".data "abcdefghijkl".data).2.2.2
     (by decide)⟩

/-! ### Claim C5 -/

/-- C5: the claim — that for non-fish dialects the upsert edits the
*first existing* candidate rc file — fails on the code: the loop writes
the first candidate in the list and breaks, never checking existence.
Amended claim, proved here: for every dialect one run writes exactly the
first candidate file in the dialect's priority list (creating it when
absent), reports it as the updated file, and leaves every other file
unchanged; for fish the single synthesized path is that first (and only)
candidate. -/
theorem c5_upsert_targets_first_candidate (cfg : Config) (sh : Shell)
    (ts nv np : Str) (vers : List Str) (fs : FS) :
    (update_shell_config cfg sh ts nv np vers fs).2 = some (firstTarget sh) ∧
    (update_shell_config cfg sh ts nv np vers fs).1 (firstTarget sh) =
      some (upsert (generate_shell_config cfg sh ts nv np vers)
        ((fs (firstTarget sh)).getD [])) ∧
    ∀ g : String, g ≠ firstTarget sh →
      (update_shell_config cfg sh ts nv np vers fs).1 g = fs g := by
  cases sh <;>
    exact ⟨rfl, rfl, fun g hg => by
      show setFile _ _ _ g = fs g
      rw [setFile]
      exact if_neg hg⟩

set_option maxRecDepth 40000 in
/-- C5 witness: a non-first candidate file is untouched. -/
theorem c5_upsert_targets_first_candidate_witness :
    (".zprofile" : String) ≠ firstTarget Shell.zsh ∧
    (update_shell_config defaultConfig Shell.zsh sampleTs sampleNvmDir
        sampleNpmDir [] fsEmpty).1 ".zprofile" = fsEmpty ".zprofile" :=
  ⟨by decide,
   (c5_upsert_targets_first_candidate defaultConfig Shell.zsh sampleTs
     sampleNvmDir sampleNpmDir [] fsEmpty).2.2 ".zprofile" (by decide)⟩

set_option maxRecDepth 40000 in
/-- C5 counterexample: with `.bashrc` absent and `.bash_profile`
present, the first *existing* candidate is `.bash_profile`, yet the code
leaves `.bash_profile` untouched and instead creates and writes
`.bashrc`. -/
theorem c5_counterexample :
    specFirstExisting (rc_files Shell.bash) fsC5 = some ".bash_profile" ∧
    (update_shell_config defaultConfig Shell.bash sampleTs sampleNvmDir
        sampleNpmDir [] fsC5).1 ".bash_profile" = fsC5 ".bash_profile" ∧
    (update_shell_config defaultConfig Shell.bash sampleTs sampleNvmDir
        sampleNpmDir [] fsC5).1 ".bashrc" ≠ fsC5 ".bashrc" := by
  refine ⟨by decide, by decide, ?_⟩
  intro h
  have : fsC5 ".bashrc" = none := by decide
  rw [this] at h
  revert h
  decide

/-! ### Claim C6 -/

/-- Specification of the `remove_shell_config` loop: the `removed` flag
is true exactly when some candidate file exists and contains the start
marker, and files without the start marker are never rewritten. -/
theorem remove_loop_spec (files : List String) :
    ∀ fs : FS,
    ((remove_shell_config_loop files fs).2 = true ↔
      ∃ f ∈ files, ∃ c, fs f = some c ∧ occursB startMarker c = true) ∧
    ∀ g : String, (∀ c, fs g = some c → occursB startMarker c = false) →
      (remove_shell_config_loop files fs).1 g = fs g := by
  induction files with
  | nil =>
    intro fs
    constructor
    · simp [remove_shell_config_loop]
    · intro g _
      rfl
  | cons f rest ih =>
    intro fs
    cases hfs : fs f with
    | none =>
      have hred : remove_shell_config_loop (f :: rest) fs =
          remove_shell_config_loop rest fs := by
        simp only [remove_shell_config_loop, hfs]
      constructor
      · rw [hred, (ih fs).1]
        constructor
        · rintro ⟨f', hf', hc⟩
          exact ⟨f', List.mem_cons_of_mem f hf', hc⟩
        · rintro ⟨f', hf', c, hc, ho⟩
          rcases List.mem_cons.mp hf' with rfl | hf'
          · rw [hfs] at hc
            exact absurd hc (by simp)
          · exact ⟨f', hf', c, hc, ho⟩
      · intro g hg
        rw [hred]
        exact (ih fs).2 g hg
    | some content =>
      cases hoB : occursB startMarker content with
      | false =>
        have hred : remove_shell_config_loop (f :: rest) fs =
            remove_shell_config_loop rest fs := by
          simp only [remove_shell_config_loop, hfs, hoB, Bool.false_eq_true,
            if_false]
        constructor
        · rw [hred, (ih fs).1]
          constructor
          · rintro ⟨f', hf', hc⟩
            exact ⟨f', List.mem_cons_of_mem f hf', hc⟩
          · rintro ⟨f', hf', c, hc, ho⟩
            rcases List.mem_cons.mp hf' with rfl | hf'
            · rw [hfs] at hc
              injection hc with hcc
              rw [← hcc, hoB] at ho
              exact absurd ho (by simp)
            · exact ⟨f', hf', c, hc, ho⟩
        · intro g hg
          rw [hred]
          exact (ih fs).2 g hg
      | true =>
        have hred : remove_shell_config_loop (f :: rest) fs =
            ((remove_shell_config_loop rest
              (setFile fs f (removeCfgContent content))).1, true) := by
          simp only [remove_shell_config_loop, hfs, hoB, if_true]
        constructor
        · rw [hred]
          constructor
          · intro _
            exact ⟨f, List.mem_cons_self f rest, content, hfs, hoB⟩
          · intro _
            rfl
        · intro g hg
          rw [hred]
          by_cases hgf : g = f
          · subst hgf
            have := hg content hfs
            rw [this] at hoB
            exact absurd hoB (by simp)
          · have hfs1 : setFile fs f (removeCfgContent content) g = fs g := by
              rw [setFile, if_neg hgf]
            have := (ih (setFile fs f (removeCfgContent content))).2 g
              (by intro c hc; rw [hfs1] at hc; exact hg c hc)
            simp only [this, hfs1]

/-- C6: the claim — that a file is reported "cleaned" only when it
contained the marker *pair* — fails on the code, which tests only for
the start marker.  Amended claim, proved here: `remove_shell_config`
reports success exactly when some candidate file exists and contains the
start marker (the end marker is not required), and it does not rewrite
files that do not contain the start marker. -/
theorem c6_remove_reports_start_marker (sh : Shell) (fs : FS) :
    ((remove_shell_config sh fs).2 = true ↔
      ∃ f ∈ rc_files sh, ∃ c, fs f = some c ∧ occursB startMarker c = true) ∧
    ∀ g : String, (∀ c, fs g = some c → occursB startMarker c = false) →
      (remove_shell_config sh fs).1 g = fs g :=
  remove_loop_spec (rc_files sh) fs

/-- C6 witness: a marker-free home is untouched by the removal. -/
theorem c6_remove_reports_start_marker_witness :
    (∀ c, fsEmpty ".bashrc" = some c → occursB startMarker c = false) ∧
    (remove_shell_config Shell.bash fsEmpty).1 ".bashrc" = fsEmpty ".bashrc" :=
  ⟨by intro c h; simp [fsEmpty] at h,
   (c6_remove_reports_start_marker Shell.bash fsEmpty).2 ".bashrc"
     (by intro c h; simp [fsEmpty] at h)⟩

set_option maxRecDepth 40000 in
/-- C6 counterexample: a `.bashrc` holding the start marker alone — no
end marker — is still reported cleaned and rewritten. -/
theorem c6_counterexample :
    occursB endMarker startMarker = false ∧
    (remove_shell_config Shell.bash fsC6).2 = true ∧
    (remove_shell_config Shell.bash fsC6).1 ".bashrc" ≠ fsC6 ".bashrc" := by
  refine ⟨by decide, by decide, ?_⟩
  intro h
  revert h
  decide

/-! ### Export-line analysis of the rendered block (claims C4, C9) -/

/-- The rendered block (as its `lines` list) contains an export of
`key`: some line starts with the dialect's export syntax for that key,
up to and including the opening value quote. -/
def HasExport (sh : Shell) (key : Str) (lines : List Str) : Prop :=
  ∃ l ∈ lines, expPfx sh key <+: l

/-- A pointwise no-export property. -/
def NoExport (sh : Shell) (key : Str) (lines : List Str) : Prop :=
  ∀ l ∈ lines, ¬ expPfx sh key <+: l

theorem not_hasExport {sh : Shell} {key : Str} {lines : List Str}
    (h : NoExport sh key lines) : ¬ HasExport sh key lines := by
  rintro ⟨l, hl, hp⟩
  exact h l hl hp

/-- Every environment-variable key that can appear in a rendered block. -/
def allKeys : List Str :=
  ["AWS_BEARER_TOKEN_BEDROCK".data, "CLAUDE_CODE_USE_BEDROCK".data,
   "ANTHROPIC_API_KEY".data, "AWS_REGION".data, "ANTHROPIC_BEDROCK_REGION".data,
   "AWS_PROFILE".data, "HTTP_PROXY".data, "HTTPS_PROXY".data,
   "http_proxy".data, "https_proxy".data, "NODE_EXTRA_CA_CERTS".data,
   "NVM_DIR".data]

/-- No two distinct keys have export syntaxes where one is a prefix of
the other. -/
def keyClashFreeB (sh : Shell) (key : Str) : Bool :=
  allKeys.all fun k₂ =>
    decide (k₂ = key) ||
    (!(expPfx sh key).isPrefixOf (expPfx sh k₂) &&
     !(expPfx sh k₂).isPrefixOf (expPfx sh key))

/-- The constant leading parts of every non-export line a block can
contain (whole constant lines appear as their own heads). -/
def coreHeads : Shell → List Str
  | .bash | .zsh =>
    [startMarker, endMarker, "# Generated on ".data,
     "[ -s \"$NVM_DIR/nvm.sh\" ] && \\. \"$NVM_DIR/nvm.sh\"".data,
     "[ -s \"$NVM_DIR/bash_completion\" ] && \\. \"$NVM_DIR/bash_completion\"".data,
     "export PATH=\"".data]
  | .fish =>
    [startMarker, endMarker, "# Generated on ".data,
     "# Add nvm Node.js to PATH".data,
     "if test -d \"$NVM_DIR/versions/node\"".data,
     "    for version_dir in (ls -d \"$NVM_DIR/versions/node\"/* 2>/dev/null | sort -V -r)".data,
     "        if test -d \"$version_dir/bin\"".data,
     "            fish_add_path \"$version_dir/bin\"".data,
     "            break".data,
     "        end".data,
     "    end".data,
     "end".data,
     "fish_add_path \"".data]
  | .csh | .tcsh =>
    [startMarker, endMarker, "# Generated on ".data,
     "# Add nvm Node.js to PATH (static - may need adjustment)".data,
     "if ( -d \"".data,
     "    setenv PATH \"".data,
     "endif".data,
     "setenv PATH \"".data]

/-- No export syntax for `key` collides with the constant line heads. -/
def coreClashFreeB (sh : Shell) (key : Str) : Bool :=
  (coreHeads sh).all fun s =>
    !(expPfx sh key).isPrefixOf s && !(s.isPrefixOf (expPfx sh key))

theorem isPrefixOf_false {a b : Str} (h : a.isPrefixOf b = false) :
    ¬ a <+: b := by
  intro hp
  rw [← List.isPrefixOf_iff_prefix] at hp
  rw [h] at hp
  exact Bool.false_ne_true hp

theorem envLine_no_clash {sh : Shell} {key : Str}
    (hcl : keyClashFreeB sh key = true) {k₂ : Str} (hmem : k₂ ∈ allKeys)
    (hne : k₂ ≠ key) (v : Str) : ¬ expPfx sh key <+: envLine sh k₂ v := by
  have hk := List.all_eq_true.mp hcl k₂ hmem
  rw [Bool.or_eq_true] at hk
  rcases hk with hk | hk
  · exact absurd (of_decide_eq_true hk) hne
  · rw [Bool.and_eq_true] at hk
    rw [envLine]
    exact not_pfx_append _ (isPrefixOf_false (by simpa using hk.1))
      (isPrefixOf_false (by simpa using hk.2))

theorem core_no_pfx {sh : Shell} {key : Str} (hcore : coreClashFreeB sh key = true)
    {s : Str} (hs : s ∈ coreHeads sh) (t : Str) : ¬ expPfx sh key <+: s ++ t := by
  have h := List.all_eq_true.mp hcore s hs
  rw [Bool.and_eq_true] at h
  exact not_pfx_append t (isPrefixOf_false (by simpa using h.1))
    (isPrefixOf_false (by simpa using h.2))

theorem core_no_pfx_self {sh : Shell} {key : Str}
    (hcore : coreClashFreeB sh key = true) {s : Str} (hs : s ∈ coreHeads sh) :
    ¬ expPfx sh key <+: s := by
  have hx := core_no_pfx hcore hs []
  rwa [List.append_nil] at hx

theorem expPfx_length_pos (sh : Shell) (key : Str) :
    0 < (expPfx sh key).length := by
  cases sh <;> simp [expPfx]

theorem not_pfx_nil {sh : Shell} {key : Str} : ¬ expPfx sh key <+: ([] : Str) := by
  intro h
  have hl := List.prefix_nil.mp h
  have := expPfx_length_pos sh key
  rw [hl] at this
  simp at this

/-- The generic no-export lemma: when `key` collides with no other key
and no constant head, and no emitted key/value pair uses `key`, the
rendered lines contain no export of `key`. -/
theorem noExport_lines (cfg : Config) (sh : Shell) (ts nv np : Str)
    (vers : List Str) (key : Str) (hclash : keyClashFreeB sh key = true)
    (hcore : coreClashFreeB sh key = true) (hnvm : "NVM_DIR".data ≠ key)
    (hkv : ∀ kv ∈ emittedKVs cfg, kv.1 ∈ allKeys ∧ kv.1 ≠ key) :
    NoExport sh key (genLines cfg sh ts nv np vers) := by
  cases sh <;> rcases vers with _ | ⟨v, vtail⟩ <;>
  (intro l hl
   rw [genLines] at hl
   simp only [shellInitLines] at hl
   rcases List.mem_append.mp hl with hl | hl
   · rcases List.mem_append.mp hl with hl | hl
     · rcases List.mem_append.mp hl with hl | hl
       · rcases List.mem_append.mp hl with hl | hl
         · fin_cases hl <;>
           first
           | exact not_pfx_nil
           | exact core_no_pfx_self hcore (by decide)
           | exact core_no_pfx hcore (by decide) _
         · fin_cases hl <;>
           first
           | exact not_pfx_nil
           | exact envLine_no_clash hclash (by decide) hnvm _
           | exact core_no_pfx_self hcore (by decide)
           | exact core_no_pfx hcore (by decide) _
       · fin_cases hl <;> exact not_pfx_nil
     · obtain ⟨kv, hm, rfl⟩ := List.mem_map.mp hl
       exact envLine_no_clash hclash (hkv kv hm).1 (hkv kv hm).2 kv.2
   · fin_cases hl <;>
     first
     | exact not_pfx_nil
     | exact core_no_pfx_self hcore (by decide))

/-- Helper: the `emittedKVs` case facts, stated over the key alone. -/
theorem kvprop_of_key (cfg : Config) (k v : Str) (hk : k ∈ allKeys)
    (h1 : k = "ANTHROPIC_API_KEY".data →
      cfg.token ≠ [] ∧ cfg.tokenType ≠ "bedrock".data)
    (h2 : (k = "AWS_BEARER_TOKEN_BEDROCK".data ∨
        k = "CLAUDE_CODE_USE_BEDROCK".data) →
      cfg.token ≠ [] ∧ cfg.tokenType = "bedrock".data) :
    ((k, v) : Str × Str).1 ∈ allKeys ∧
    (((k, v) : Str × Str).1 = "ANTHROPIC_API_KEY".data →
      cfg.token ≠ [] ∧ cfg.tokenType ≠ "bedrock".data) ∧
    ((((k, v) : Str × Str).1 = "AWS_BEARER_TOKEN_BEDROCK".data ∨
      ((k, v) : Str × Str).1 = "CLAUDE_CODE_USE_BEDROCK".data) →
      cfg.token ≠ [] ∧ cfg.tokenType = "bedrock".data) := ⟨hk, h1, h2⟩

/-- Case analysis of the emitted key/value pairs: every key is a known
key; the direct API key is emitted only with a nonempty token in
non-bedrock mode; the two bedrock variables only with a nonempty token
in bedrock mode. -/
theorem emittedKVs_cases (cfg : Config) :
    ∀ kv ∈ emittedKVs cfg,
      kv.1 ∈ allKeys ∧
      (kv.1 = "ANTHROPIC_API_KEY".data →
        cfg.token ≠ [] ∧ cfg.tokenType ≠ "bedrock".data) ∧
      ((kv.1 = "AWS_BEARER_TOKEN_BEDROCK".data ∨
        kv.1 = "CLAUDE_CODE_USE_BEDROCK".data) →
        cfg.token ≠ [] ∧ cfg.tokenType = "bedrock".data) := by
  rw [emittedKVs]
  refine List.forall_mem_append.mpr ⟨List.forall_mem_append.mpr
    ⟨List.forall_mem_append.mpr ⟨List.forall_mem_append.mpr ⟨?_, ?_⟩, ?_⟩, ?_⟩, ?_⟩
  · intro kv hkv
    by_cases ht : cfg.token = []
    · rw [if_pos ht] at hkv
      exact absurd hkv (List.not_mem_nil kv)
    · rw [if_neg ht] at hkv
      by_cases hb : cfg.tokenType = "bedrock".data
      · rw [if_pos hb] at hkv
        rcases List.mem_cons.mp hkv with rfl | hkv
        · exact kvprop_of_key cfg _ _ (by decide)
            (by intro h; exact absurd h (by decide)) (fun _ => ⟨ht, hb⟩)
        · rcases List.mem_cons.mp hkv with rfl | hkv
          · exact kvprop_of_key cfg _ _ (by decide)
              (by intro h; exact absurd h (by decide)) (fun _ => ⟨ht, hb⟩)
          · exact absurd hkv (List.not_mem_nil kv)
      · rw [if_neg hb] at hkv
        rcases List.mem_cons.mp hkv with rfl | hkv
        · exact kvprop_of_key cfg _ _ (by decide) (fun _ => ⟨ht, hb⟩)
            (by rintro (h | h) <;> exact absurd h (by decide))
        · exact absurd hkv (List.not_mem_nil kv)
  · intro kv hkv
    by_cases hr : cfg.awsRegion = []
    · rw [if_pos hr] at hkv
      exact absurd hkv (List.not_mem_nil kv)
    · rw [if_neg hr] at hkv
      rcases List.mem_append.mp hkv with hkv | hkv
      · rcases List.mem_cons.mp hkv with rfl | hkv
        · exact kvprop_of_key cfg _ _ (by decide)
            (by intro h; exact absurd h (by decide))
            (by rintro (h | h) <;> exact absurd h (by decide))
        · exact absurd hkv (List.not_mem_nil kv)
      · by_cases hb : cfg.tokenType = "bedrock".data
        · rw [if_pos hb] at hkv
          rcases List.mem_cons.mp hkv with rfl | hkv
          · exact kvprop_of_key cfg _ _ (by decide)
              (by intro h; exact absurd h (by decide))
              (by rintro (h | h) <;> exact absurd h (by decide))
          · exact absurd hkv (List.not_mem_nil kv)
        · rw [if_neg hb] at hkv
          exact absurd hkv (List.not_mem_nil kv)
  · intro kv hkv
    by_cases hp : cfg.awsProfile = []
    · rw [if_pos hp] at hkv
      exact absurd hkv (List.not_mem_nil kv)
    · rw [if_neg hp] at hkv
      rcases List.mem_cons.mp hkv with rfl | hkv
      · exact kvprop_of_key cfg _ _ (by decide)
          (by intro h; exact absurd h (by decide))
          (by rintro (h | h) <;> exact absurd h (by decide))
      · exact absurd hkv (List.not_mem_nil kv)
  · intro kv hkv
    by_cases hx : cfg.httpProxy ≠ [] ∧ cfg.skipProxy = false
    · rw [if_pos hx] at hkv
      rcases List.mem_cons.mp hkv with rfl | hkv
      · exact kvprop_of_key cfg _ _ (by decide)
          (by intro h; exact absurd h (by decide))
          (by rintro (h | h) <;> exact absurd h (by decide))
      · rcases List.mem_cons.mp hkv with rfl | hkv
        · exact kvprop_of_key cfg _ _ (by decide)
            (by intro h; exact absurd h (by decide))
            (by rintro (h | h) <;> exact absurd h (by decide))
        · rcases List.mem_cons.mp hkv with rfl | hkv
          · exact kvprop_of_key cfg _ _ (by decide)
              (by intro h; exact absurd h (by decide))
              (by rintro (h | h) <;> exact absurd h (by decide))
          · rcases List.mem_cons.mp hkv with rfl | hkv
            · exact kvprop_of_key cfg _ _ (by decide)
                (by intro h; exact absurd h (by decide))
                (by rintro (h | h) <;> exact absurd h (by decide))
            · exact absurd hkv (List.not_mem_nil kv)
    · rw [if_neg hx] at hkv
      exact absurd hkv (List.not_mem_nil kv)
  · intro kv hkv
    rcases List.mem_cons.mp hkv with rfl | hkv
    · exact kvprop_of_key cfg _ _ (by decide)
        (by intro h; exact absurd h (by decide))
        (by rintro (h | h) <;> exact absurd h (by decide))
    · exact absurd hkv (List.not_mem_nil kv)

theorem keyClash_apiKey (sh : Shell) :
    keyClashFreeB sh "ANTHROPIC_API_KEY".data = true := by
  cases sh <;> decide

theorem keyClash_bearer (sh : Shell) :
    keyClashFreeB sh "AWS_BEARER_TOKEN_BEDROCK".data = true := by
  cases sh <;> decide

theorem keyClash_ccub (sh : Shell) :
    keyClashFreeB sh "CLAUDE_CODE_USE_BEDROCK".data = true := by
  cases sh <;> decide

theorem coreClash_apiKey (sh : Shell) :
    coreClashFreeB sh "ANTHROPIC_API_KEY".data = true := by
  cases sh <;> decide

theorem coreClash_bearer (sh : Shell) :
    coreClashFreeB sh "AWS_BEARER_TOKEN_BEDROCK".data = true := by
  cases sh <;> decide

theorem coreClash_ccub (sh : Shell) :
    coreClashFreeB sh "CLAUDE_CODE_USE_BEDROCK".data = true := by
  cases sh <;> decide

theorem noExport_apiKey (cfg : Config) (sh : Shell) (ts nv np : Str)
    (vers : List Str) (hcond : cfg.token = [] ∨ cfg.tokenType = "bedrock".data) :
    NoExport sh "ANTHROPIC_API_KEY".data (genLines cfg sh ts nv np vers) := by
  refine noExport_lines cfg sh ts nv np vers _ (keyClash_apiKey sh)
    (coreClash_apiKey sh) (by decide) ?_
  intro kv hm
  obtain ⟨hmem, himp, _⟩ := emittedKVs_cases cfg kv hm
  refine ⟨hmem, ?_⟩
  intro hk
  obtain ⟨ht, hb⟩ := himp hk
  rcases hcond with hco | hco
  · exact ht hco
  · exact hb hco

theorem noExport_bearer (cfg : Config) (sh : Shell) (ts nv np : Str)
    (vers : List Str) (hcond : cfg.token = [] ∨ cfg.tokenType ≠ "bedrock".data) :
    NoExport sh "AWS_BEARER_TOKEN_BEDROCK".data (genLines cfg sh ts nv np vers) := by
  refine noExport_lines cfg sh ts nv np vers _ (keyClash_bearer sh)
    (coreClash_bearer sh) (by decide) ?_
  intro kv hm
  obtain ⟨hmem, _, himp⟩ := emittedKVs_cases cfg kv hm
  refine ⟨hmem, ?_⟩
  intro hk
  obtain ⟨ht, hb⟩ := himp (Or.inl hk)
  rcases hcond with hco | hco
  · exact ht hco
  · exact hco hb

theorem noExport_ccub (cfg : Config) (sh : Shell) (ts nv np : Str)
    (vers : List Str) (hcond : cfg.token = [] ∨ cfg.tokenType ≠ "bedrock".data) :
    NoExport sh "CLAUDE_CODE_USE_BEDROCK".data (genLines cfg sh ts nv np vers) := by
  refine noExport_lines cfg sh ts nv np vers _ (keyClash_ccub sh)
    (coreClash_ccub sh) (by decide) ?_
  intro kv hm
  obtain ⟨hmem, _, himp⟩ := emittedKVs_cases cfg kv hm
  refine ⟨hmem, ?_⟩
  intro hk
  obtain ⟨ht, hb⟩ := himp (Or.inr hk)
  rcases hcond with hco | hco
  · exact ht hco
  · exact hco hb

theorem hasExport_of_kv {cfg : Config} (sh : Shell) (ts nv np : Str)
    (vers : List Str) {key val : Str} (h : (key, val) ∈ emittedKVs cfg) :
    HasExport sh key (genLines cfg sh ts nv np vers) := by
  refine ⟨envLine sh key val, ?_, ⟨val ++ "\"".data, rfl⟩⟩
  rw [genLines]
  have hm : envLine sh key val ∈
      (emittedKVs cfg).map (fun kv => envLine sh kv.1 kv.2) :=
    List.mem_map.mpr ⟨(key, val), h, rfl⟩
  simp only [List.mem_append]
  tauto

theorem bearer_kv_mem {cfg : Config} (ht : cfg.token ≠ [])
    (hb : cfg.tokenType = "bedrock".data) :
    ("AWS_BEARER_TOKEN_BEDROCK".data, cfg.token) ∈ emittedKVs cfg := by
  rw [emittedKVs]
  simp only [List.mem_append]
  left; left; left; left
  rw [if_neg ht, if_pos hb]
  simp

theorem ccub_kv_mem {cfg : Config} (ht : cfg.token ≠ [])
    (hb : cfg.tokenType = "bedrock".data) :
    ("CLAUDE_CODE_USE_BEDROCK".data, "1".data) ∈ emittedKVs cfg := by
  rw [emittedKVs]
  simp only [List.mem_append]
  left; left; left; left
  rw [if_neg ht, if_pos hb]
  simp

theorem apikey_kv_mem {cfg : Config} (ht : cfg.token ≠ [])
    (hb : cfg.tokenType ≠ "bedrock".data) :
    ("ANTHROPIC_API_KEY".data, cfg.token) ∈ emittedKVs cfg := by
  rw [emittedKVs]
  simp only [List.mem_append]
  left; left; left; left
  rw [if_neg ht, if_neg hb]
  simp

/-! ### Claim C4 -/

/-- C4: token-kind exclusivity of the rendered block: with a nonempty
token, bedrock mode emits the bearer-token export and the bedrock-enable
export but no direct-API-key export; anthropic mode emits the
direct-API-key export and neither bedrock export. -/
theorem c4_token_kind_exclusivity (cfg : Config) (sh : Shell) (ts nv np : Str)
    (vers : List Str) (h : cfg.token ≠ []) :
    (cfg.tokenType = "bedrock".data →
      HasExport sh "AWS_BEARER_TOKEN_BEDROCK".data (genLines cfg sh ts nv np vers) ∧
      HasExport sh "CLAUDE_CODE_USE_BEDROCK".data (genLines cfg sh ts nv np vers) ∧
      ¬ HasExport sh "ANTHROPIC_API_KEY".data (genLines cfg sh ts nv np vers)) ∧
    (cfg.tokenType = "anthropic".data →
      HasExport sh "ANTHROPIC_API_KEY".data (genLines cfg sh ts nv np vers) ∧
      ¬ HasExport sh "AWS_BEARER_TOKEN_BEDROCK".data (genLines cfg sh ts nv np vers) ∧
      ¬ HasExport sh "CLAUDE_CODE_USE_BEDROCK".data (genLines cfg sh ts nv np vers)) := by
  constructor
  · intro hb
    exact ⟨hasExport_of_kv sh ts nv np vers (bearer_kv_mem h hb),
      hasExport_of_kv sh ts nv np vers (ccub_kv_mem h hb),
      not_hasExport (noExport_apiKey cfg sh ts nv np vers (Or.inr hb))⟩
  · intro ha
    have hb : cfg.tokenType ≠ "bedrock".data := by
      rw [ha]
      decide
    exact ⟨hasExport_of_kv sh ts nv np vers (apikey_kv_mem h hb),
      not_hasExport (noExport_bearer cfg sh ts nv np vers (Or.inr hb)),
      not_hasExport (noExport_ccub cfg sh ts nv np vers (Or.inr hb))⟩

/-- A bedrock configuration with a token, for witnesses. -/
def cfgBedrock : Config :=
  { defaultConfig with token := "tok".data, tokenType := "bedrock".data }

/-- A bedrock configuration without a token, for witnesses. -/
def cfgBedrockNoToken : Config :=
  { defaultConfig with tokenType := "bedrock".data }

/-- C4 witness at a concrete bedrock configuration. -/
theorem c4_token_kind_exclusivity_witness :
    cfgBedrock.token ≠ [] ∧
    ((cfgBedrock.tokenType = "bedrock".data →
      HasExport Shell.bash "AWS_BEARER_TOKEN_BEDROCK".data
        (genLines cfgBedrock Shell.bash sampleTs sampleNvmDir sampleNpmDir []) ∧
      HasExport Shell.bash "CLAUDE_CODE_USE_BEDROCK".data
        (genLines cfgBedrock Shell.bash sampleTs sampleNvmDir sampleNpmDir []) ∧
      ¬ HasExport Shell.bash "ANTHROPIC_API_KEY".data
        (genLines cfgBedrock Shell.bash sampleTs sampleNvmDir sampleNpmDir [])) ∧
    (cfgBedrock.tokenType = "anthropic".data →
      HasExport Shell.bash "ANTHROPIC_API_KEY".data
        (genLines cfgBedrock Shell.bash sampleTs sampleNvmDir sampleNpmDir []) ∧
      ¬ HasExport Shell.bash "AWS_BEARER_TOKEN_BEDROCK".data
        (genLines cfgBedrock Shell.bash sampleTs sampleNvmDir sampleNpmDir []) ∧
      ¬ HasExport Shell.bash "CLAUDE_CODE_USE_BEDROCK".data
        (genLines cfgBedrock Shell.bash sampleTs sampleNvmDir sampleNpmDir []))) :=
  ⟨by decide,
   c4_token_kind_exclusivity cfgBedrock Shell.bash sampleTs sampleNvmDir
     sampleNpmDir [] (by decide)⟩

/-! ### Claim C9 -/

/-- C9: with bedrock token kind but an empty token, the rendered block
contains neither the bearer-token export nor the bedrock-enable export:
all token-related exports require a nonempty token. -/
theorem c9_empty_token_no_bedrock_exports (cfg : Config) (sh : Shell)
    (ts nv np : Str) (vers : List Str)
    (hb : cfg.tokenType = "bedrock".data) (h : cfg.token = []) :
    ¬ HasExport sh "AWS_BEARER_TOKEN_BEDROCK".data
        (genLines cfg sh ts nv np vers) ∧
    ¬ HasExport sh "CLAUDE_CODE_USE_BEDROCK".data
        (genLines cfg sh ts nv np vers) :=
  ⟨not_hasExport (noExport_bearer cfg sh ts nv np vers (Or.inl h)),
   not_hasExport (noExport_ccub cfg sh ts nv np vers (Or.inl h))⟩

/-- C9 witness at a concrete token-less bedrock configuration. -/
theorem c9_empty_token_no_bedrock_exports_witness :
    cfgBedrockNoToken.tokenType = "bedrock".data ∧ cfgBedrockNoToken.token = [] ∧
    (¬ HasExport Shell.fish "AWS_BEARER_TOKEN_BEDROCK".data
        (genLines cfgBedrockNoToken Shell.fish sampleTs sampleNvmDir sampleNpmDir []) ∧
    ¬ HasExport Shell.fish "CLAUDE_CODE_USE_BEDROCK".data
        (genLines cfgBedrockNoToken Shell.fish sampleTs sampleNvmDir sampleNpmDir [])) :=
  ⟨by decide, by decide,
   c9_empty_token_no_bedrock_exports cfgBedrockNoToken Shell.fish sampleTs
     sampleNvmDir sampleNpmDir [] (by decide) (by decide)⟩
